import Mathlib

/-!
Verification of the AI-Agent-CV front end (src/app.js, src/ui.js).

Shallow embedding of the streaming chat client (app.js: safeParseJSON,
streamGeminiResponseViaProxy, handleSendMessage) and the CV review engine
(ui.js: upsertByName, deepClone, readCvFromDom, syncActiveCvFromDom,
openCvModal, renderCvDetails, formatDescriptionAsBullets), together with
theorems settling the specification claims about them.
-/

/-! ## JSON value model

JavaScript values produced by `JSON.parse`.  Numbers are modelled as
integers (the claims under study involve no fractional literals).
`undefined` (an absent property) is modelled as `Option.none` at the
lookup site. -/

inductive Json where
  | null
  | bool (b : Bool)
  | num (n : Int)
  | str (s : String)
  | arr (elems : List Json)
  | obj (fields : List (String × Json))

/-- JavaScript truthiness of a parsed JSON value: `null`, `false`, `0` and
`""` are falsy; every array and object is truthy. -/
def truthy : Json → Bool
  | .null => false
  | .bool b => b
  | .num n => n != 0
  | .str s => s != ""
  | .arr _ => true
  | .obj _ => true

/-- Truthiness of the result of `safeParseJSON` (app.js 32-38): `none`
models the `null` returned on a parse failure, which is falsy. -/
def truthyOpt : Option Json → Bool
  | none => false
  | some v => truthy v

/-- JavaScript property read `v[k]`: `none` models `undefined` (missing
property or a non-object receiver other than `null`; the `null` receiver,
which throws, is handled at the call sites).  `JSON.parse` keeps the last
of duplicate keys, hence the reversed search. -/
def getField : Json → String → Option Json
  | .obj fields, k => (fields.reverse.find? (fun p => p.1 = k)).map (fun p => p.2)
  | _, _ => none

mutual

/-- JavaScript string coercion (`fullText += token` with a non-string
token): numbers and booleans print, arrays join with commas, plain
objects print as `[object Object]`. -/
def jsToString : Json → String
  | .null => "null"
  | .bool b => if b then "true" else "false"
  | .num n => toString n
  | .str s => s
  | .arr es => String.intercalate "," (jsArrParts es)
  | .obj _ => "[object Object]"

/-- `Array.prototype.toString` renders `null` elements as empty strings. -/
def jsArrParts : List Json → List String
  | [] => []
  | e :: rest =>
    (match e with
      | Json.null => ""
      | v => jsToString v) :: jsArrParts rest

end

/-- JavaScript `String.prototype.trim` whitespace class (the characters
relevant to the frames under study). -/
def isJsWs (c : Char) : Bool :=
  c = ' ' || c = '\t' || c = '\n' || c = '\r' || c = '\x0b' || c = '\x0c'

/-- JavaScript `raw.trim()`: strip leading and trailing whitespace. -/
def jsTrim (s : String) : String :=
  String.mk (((s.data.dropWhile isJsWs).reverse.dropWhile isJsWs).reverse)

/-! ## Frame classification (app.js 256-321, `ws.onmessage`)

The handler receives the raw payload `evt.data` and the result of
`safeParseJSON(raw)` (`none` models the `null` returned when `JSON.parse`
throws).  Its observable behaviour on one frame is one of: emit a token
(append to `fullText` and call `onToken`), emit a token and then resolve,
resolve, do nothing, or throw a `TypeError`. -/

inductive Frame where
  | token (s : String)
  | tokenAndTerminate (s : String)
  | terminate
  | ignore
  | throws
deriving DecidableEq, Repr

/-- The trailing branch of `ws.onmessage` (app.js 308-320): a `[DONE]`
sentinel or whitespace-only payload resolves the stream, anything else is
appended as a raw token. -/
def classifyRaw (raw : String) : Frame :=
  if jsTrim raw = "[DONE]" || jsTrim raw = "" then .terminate
  else .token raw

/-- `a || b || ""` over two property reads (app.js 272,
`delta.content || delta.text || ""`). -/
def jsOrToken (a b : Option Json) : Json :=
  match a.filter truthy with
  | some v => v
  | none =>
    match b.filter truthy with
    | some w => w
    | none => .str ""

/-- The `maybe.choices && Array.isArray(maybe.choices)` branch
(app.js 270-284).  `choices[0]` on an empty array is `undefined` and
`undefined.delta` throws; a `null` first choice likewise throws on
`null.delta`. -/
def classifyChoices (es : List Json) : Frame :=
  match es.head? with
  | none => .throws
  | some c0 =>
    match c0 with
    | .null => .throws
    | c0 =>
      let delta :=
        match (getField c0 "delta").filter truthy with
        | some d => d
        | none => Json.obj []
      let token := jsOrToken (getField delta "content") (getField delta "text")
      let finish := truthyOpt (getField c0 "finish_reason")
      if truthy token then
        if finish then .tokenAndTerminate (jsToString token)
        else .token (jsToString token)
      else
        if finish then .terminate
        else .ignore

/-- Whether the `event` field of `v` is strictly equal (`===`) to the
string `tag`. -/
def eventIs (v : Json) (tag : String) : Bool :=
  match getField v "event" with
  | some (.str e) => e = tag
  | _ => false

/-- Case 2 (app.js 287-291): `maybe.event === "token" &&
typeof maybe.token === "string"`; the token is appended unconditionally
(even when it is the empty string). -/
def caseTokenEvent (v : Json) : Option String :=
  if eventIs v "token" then
    match getField v "token" with
    | some (.str t) => some t
    | _ => none
  else none

/-- Case 3 (app.js 294-298): `typeof maybe.text === "string"`. -/
def caseTextField (v : Json) : Option String :=
  match getField v "text" with
  | some (.str t) => some t
  | _ => none

/-- The `if (maybe)` body of `ws.onmessage` (app.js 268-306): the four
recognized shapes in source order.  When none matches, control falls out
of the block into the raw-text branch (there is no final `return` at the
end of the block). -/
def classifyDecoded (raw : String) (v : Json) : Frame :=
  match getField v "choices" with
  | some (Json.arr es) => classifyChoices es
  | _ =>
    match caseTokenEvent v with
    | some t => .token t
    | none =>
      match caseTextField v with
      | some t => .token t
      | none =>
        if eventIs v "end" then .terminate
        else classifyRaw raw

/-- The whole of `ws.onmessage` (app.js 256-321) as a classification of
one inbound frame.  `raw` is `evt.data`; `maybe` is the result of
`safeParseJSON(raw)` (`none` when `JSON.parse` throws).  The guard
`if (!evt || !evt.data) return;` makes the empty payload a no-op, and
`if (maybe)` skips the structured block when the parse result is falsy
(`null`, `false`, `0`, `""`). -/
def onMessageClassify (raw : String) (maybe : Option Json) : Frame :=
  if raw = "" then .ignore
  else
    match maybe with
    | some v => if truthy v then classifyDecoded raw v else classifyRaw raw
    | none => classifyRaw raw

/-! ## Stream session (app.js 209-332, `streamGeminiResponseViaProxy`)

State of one streaming session after the channel opened.  `settleCount`
counts the calls to `resolve`/`reject` that pass the `resolved` guard,
`outcome` is the settled value of the promise, `emitted` records the
arguments of the `onToken` calls. -/

structure SessionState where
  resolved : Bool
  fullText : String
  emitted : List String
  wsClosed : Bool
  timerCleared : Bool
  outcome : Option (Except String String)
  settleCount : Nat
deriving Repr

def initSession : SessionState :=
  { resolved := false, fullText := "", emitted := [], wsClosed := false,
    timerCleared := false, outcome := none, settleCount := 0 }

/-- `clearAndResolve` (app.js 223-228): test-and-set on `resolved`, close
the channel, settle the promise with the value. -/
def clearAndResolve (v : String) (st : SessionState) : SessionState :=
  if st.resolved then st
  else { st with resolved := true, wsClosed := true,
                 outcome := some (.ok v), settleCount := st.settleCount + 1 }

/-- `clearAndReject` (app.js 230-235). -/
def clearAndReject (msg : String) (st : SessionState) : SessionState :=
  if st.resolved then st
  else { st with resolved := true, wsClosed := true,
                 outcome := some (.error msg), settleCount := st.settleCount + 1 }

/-- The asynchronous events that can reach an open session: an inbound
channel message (with its `safeParseJSON` result), the channel `error`
and `close` events, and the deadline timer firing. -/
inductive Ev where
  | msg (raw : String) (maybe : Option Json)
  | wsError
  | wsClose
  | timeout

/-- One event handled by the session's callbacks (app.js 238-330). -/
def step (st : SessionState) (e : Ev) : SessionState :=
  match e with
  | .msg raw maybe =>
    match onMessageClassify raw maybe with
    | .ignore => st
    | .throws => st
    | .token s => { st with fullText := st.fullText ++ s, emitted := st.emitted ++ [s] }
    | .terminate => clearAndResolve st.fullText { st with timerCleared := true }
    | .tokenAndTerminate s =>
      clearAndResolve (st.fullText ++ s)
        { st with fullText := st.fullText ++ s, emitted := st.emitted ++ [s],
                  timerCleared := true }
  | .wsError => clearAndReject "WebSocket error" { st with timerCleared := true }
  | .wsClose =>
    let st' := { st with timerCleared := true, wsClosed := true }
    if st'.resolved then st' else clearAndResolve st'.fullText st'
  | .timeout =>
    if st.resolved then st
    else clearAndReject "Streaming timeout" { st with wsClosed := true }

/-- Run a session over a sequence of events. -/
def runSession (tr : List Ev) : SessionState :=
  tr.foldl step initSession

/-- Whether an event settles a not-yet-resolved session: terminate-class
frames, channel error, channel close, deadline expiry. -/
def isCompletion (e : Ev) : Bool :=
  match e with
  | .msg raw maybe =>
    match onMessageClassify raw maybe with
    | .terminate => true
    | .tokenAndTerminate _ => true
    | _ => false
  | .wsError => true
  | .wsClose => true
  | .timeout => true

/-! ## Chat turn (app.js 396-502 `handleSendMessage`, ui.js 647-718)

The observable effect of one chat turn.  The streaming attempt and the
blocking fallback are abstracted by their outcomes; `enhance` abstracts
the externally defined prompt construction (`buildChatContextMessage`
and the CV-summary block), which both attempts share. -/

structure ChatMsg where
  text : String
  isUser : Bool
deriving DecidableEq, Repr

inductive StreamOut where
  | ok (finalText : String)
  | fail
deriving DecidableEq, Repr

inductive BlockOut where
  | ok (reply : String)
  | fail
deriving DecidableEq, Repr

/-- The fixed apology shown when the turn fails terminally
(app.js 495-498, ui.js 711-714). -/
def apologyText : String :=
  "Sorry, I'm having trouble connecting. Please verify the API key and network."

structure TurnResult where
  /-- User messages rendered into the chat DOM this turn. -/
  userRendered : List String
  /-- Assistant messages present in the chat DOM at the end of the turn
  (the streaming container, if kept, counts as one). -/
  assistantRendered : List String
  /-- `chatHistory` after the turn. -/
  history : List ChatMsg
  /-- Whether a streaming bubble was created (`addStreamingMessageContainer`). -/
  containerCreated : Bool
  /-- Whether the streaming bubble was removed again (fallback path). -/
  containerRemoved : Bool
  /-- Whether the blocking HTTP call (`callGeminiAPI`) ran. -/
  blockingCalled : Bool
  /-- Prompt of the streaming start payload, when a stream was attempted. -/
  streamPrompt : Option String
  /-- History carried by the streaming start payload. -/
  streamHistory : Option (List ChatMsg)
  /-- Prompt passed to the blocking call, when it ran. -/
  blockingPrompt : Option String
  /-- History passed to the blocking call, when it ran. -/
  blockingHistory : Option (List ChatMsg)
  /-- Whether the send button is left disabled at the end of the turn. -/
  sendDisabled : Bool
deriving DecidableEq, Repr

/-- The no-effect result of the empty-input guard: nothing rendered,
history unchanged, no channel, no blocking call, button untouched. -/
def emptyTurn (pre : List ChatMsg) : TurnResult :=
  { userRendered := [], assistantRendered := [], history := pre,
    containerCreated := false, containerRemoved := false, blockingCalled := false,
    streamPrompt := none, streamHistory := none,
    blockingPrompt := none, blockingHistory := none, sendDisabled := false }

/-- `handleSendMessage` of app.js (396-502): guard on trimmed input, push
the user message, attempt the stream; on stream failure remove the
partial container and fall back to one blocking call; on double failure
render the fixed apology (without pushing it to `chatHistory`); finally
re-enable the send button. -/
def handleSendMessage (enhance : String → String) (input : String)
    (pre : List ChatMsg) (s : StreamOut) (b : BlockOut) : TurnResult :=
  let message := jsTrim input
  if message = "" then emptyTurn pre
  else
    let hist1 := pre ++ [⟨message, true⟩]
    let em := enhance message
    match s with
    | .ok finalText =>
      { userRendered := [message], assistantRendered := [finalText],
        history := hist1 ++ [⟨finalText, false⟩],
        containerCreated := true, containerRemoved := false, blockingCalled := false,
        streamPrompt := some em, streamHistory := some hist1,
        blockingPrompt := none, blockingHistory := none, sendDisabled := false }
    | .fail =>
      match b with
      | .ok reply =>
        { userRendered := [message], assistantRendered := [reply],
          history := hist1 ++ [⟨reply, false⟩],
          containerCreated := true, containerRemoved := true, blockingCalled := true,
          streamPrompt := some em, streamHistory := some hist1,
          blockingPrompt := some em, blockingHistory := some hist1,
          sendDisabled := false }
      | .fail =>
        { userRendered := [message], assistantRendered := [apologyText],
          history := hist1,
          containerCreated := true, containerRemoved := true, blockingCalled := true,
          streamPrompt := some em, streamHistory := some hist1,
          blockingPrompt := some em, blockingHistory := some hist1,
          sendDisabled := false }

/-- `handleSendMessage` of ui.js (647-718): same guard and history logic,
blocking call only, no streaming container. -/
def handleSendMessageUi (enhance : String → String) (input : String)
    (pre : List ChatMsg) (b : BlockOut) : TurnResult :=
  let message := jsTrim input
  if message = "" then emptyTurn pre
  else
    let hist1 := pre ++ [⟨message, true⟩]
    let em := enhance message
    match b with
    | .ok reply =>
      { userRendered := [message], assistantRendered := [reply],
        history := hist1 ++ [⟨reply, false⟩],
        containerCreated := false, containerRemoved := false, blockingCalled := true,
        streamPrompt := none, streamHistory := none,
        blockingPrompt := some em, blockingHistory := some hist1,
        sendDisabled := false }
    | .fail =>
      { userRendered := [message], assistantRendered := [apologyText],
        history := hist1,
        containerCreated := false, containerRemoved := false, blockingCalled := true,
        streamPrompt := none, streamHistory := none,
        blockingPrompt := some em, blockingHistory := some hist1,
        sendDisabled := false }

/-! ## Record store (ui.js 461-516)

Section entries are JavaScript objects of string fields, modelled as
association lists with in-place update (`entrySet` models
`entry[key] = value`: an existing key keeps its position, a new key is
appended, matching JS property-insertion order). -/

abbrev Entry : Type := List (String × String)

/-- `entry[key] = value` on a JS object. -/
def entrySet (d : Entry) (k v : String) : Entry :=
  if d.any (fun p => p.1 = k) then
    d.map (fun p => if p.1 = k then (k, v) else p)
  else d ++ [(k, v)]

/-- `item[key]` on a JS object (`none` = `undefined`). -/
def entryGet (d : Entry) (k : String) : Option String :=
  (d.find? (fun p => p.1 = k)).map (fun p => p.2)

/-- One CV record as handled by the review modal (ui.js 855-889):
a name plus the four ordered section lists. -/
structure Cv where
  name : String
  experience : List Entry
  education : List Entry
  certifications : List Entry
  skills : List Entry
deriving DecidableEq, Repr

/-- One `map.set(nameOf x, x)` on a JS `Map` represented as its ordered
value list: an existing key keeps its position and takes the new value,
a new key is appended. -/
def mapSet {α : Type} (nameOf : α → String) (m : List α) (x : α) : List α :=
  if m.any (fun y => nameOf y = nameOf x) then
    m.map (fun y => if nameOf y = nameOf x then x else y)
  else m ++ [x]

/-- `upsertByName` (ui.js 465-474): insert `existing` then `incoming`
into one empty `Map` keyed by name and return `Array.from(map.values())`.
Generic in the element type so the same transcription serves both the
value model and the tagged (object-identity) model. -/
def upsertByNameBy {α : Type} (nameOf : α → String)
    (existing incoming : List α) : List α :=
  incoming.foldl (mapSet nameOf) (existing.foldl (mapSet nameOf) [])

def upsertByName (existing incoming : List Cv) : List Cv :=
  upsertByNameBy (fun cv => cv.name) existing incoming

/-! Specification-side description of the result (spec §4.4): "resulting
order follows first-seen insertion with duplicates collapsed to their
last value". -/

/-- The record names in first-seen order. -/
def firstSeenNames {α : Type} (nameOf : α → String) : List α → List String
  | [] => []
  | x :: rest => nameOf x :: (firstSeenNames nameOf rest).filter (fun n => n ≠ nameOf x)

/-- The last record carrying a given name. -/
def lastNamed {α : Type} (nameOf : α → String) (l : List α) (n : String) : Option α :=
  (l.filter (fun x => nameOf x = n)).getLast?

/-- Modelled from the spec (§4.4): first-seen order, duplicates collapsed
to their last value.  Compared with `upsertByNameBy` by refinement. -/
def upsertSpec {α : Type} (nameOf : α → String) (e i : List α) : List α :=
  (firstSeenNames nameOf (e ++ i)).filterMap (lastNamed nameOf (e ++ i))

def upsertSpecCv (e i : List Cv) : List Cv :=
  upsertSpec (fun cv => cv.name) e i

/-! ### Object identity model (for the aliasing claim)

A JS object is a value plus an identity; `Nat × Cv` tags each record with
its heap identity.  Operations that return an input object unchanged keep
its tag; `deepClone` (ui.js 476-482, `structuredClone` with a
JSON-round-trip fallback) yields equal values under fresh tags. -/

def upsertByNameRef (existing incoming : List (Nat × Cv)) : List (Nat × Cv) :=
  upsertByNameBy (fun p => p.2.name) existing incoming

/-- `deepClone` applied to a list of records: same values, fresh
identities `fresh, fresh+1, ...`. -/
def deepCloneList (fresh : Nat) : List (Nat × Cv) → List (Nat × Cv)
  | [] => []
  | p :: rest => (fresh, p.2) :: deepCloneList (fresh + 1) rest

/-! ## View synchronizer (ui.js 224-316, 361-459, 484-558)

The rendered modal DOM for the active record: for each section either
`none` (the section list element is absent) or the ordered list of
still-present rows; an item row is the ordered list of its tagged inputs
`(dataset.field, value)`, a skill bubble is its input's value. -/

structure CvView where
  experience : Option (List Entry)
  education : Option (List Entry)
  certifications : Option (List Entry)
  skills : Option (List String)
deriving DecidableEq, Repr

/-- Field lists of `renderCvDetails` (ui.js 368-416), in DOM order. -/
def expFields : List String := ["jobTitle", "company", "description", "years"]

def eduFields : List String := ["degreeField", "school"]

def certFields : List String := ["title"]

/-! `formatDescriptionAsBullets` (ui.js 224-242), applied by
`createItemRow` to description inputs when the row is created. -/

/-- `text.replace(/\r/g, "")`. -/
def stripCR (s : String) : String :=
  String.mk (s.data.filter (fun c => c ≠ '\r'))

/-- `.replace(/\.\s+/g, ".\n")`: each dot followed by a whitespace run
becomes a dot plus one newline. -/
def dotBreak : List Char → List Char
  | [] => []
  | '.' :: rest =>
    if (rest.head?.map isJsWs).getD false then
      '.' :: '\n' :: dotBreak (rest.dropWhile isJsWs)
    else '.' :: dotBreak rest
  | c :: rest => c :: dotBreak rest
termination_by l => l.length
decreasing_by
  all_goals simp only [List.length_cons]
  all_goals first
    | (refine Nat.lt_succ_of_le ?_
       have h : ∀ (p : Char → Bool) (l : List Char),
           (l.dropWhile p).length ≤ l.length := by
         intro p l
         induction l with
         | nil => simp
         | cons c rest ih =>
           by_cases hc : p c
           · simp only [List.dropWhile, hc, List.length_cons]
             omega
           · simp [List.dropWhile, hc]
       exact h _ _)
    | omega

/-- `.split(/\n+/)`: split on newline runs (a leading or trailing run
yields an empty part, as in JS). -/
def splitNl : List Char → List (List Char)
  | [] => [[]]
  | '\n' :: rest => [] :: splitNl (rest.dropWhile (fun c => c = '\n'))
  | c :: rest =>
    match splitNl rest with
    | [] => [[c]]
    | h :: t => (c :: h) :: t
termination_by l => l.length
decreasing_by
  all_goals simp only [List.length_cons]
  all_goals first
    | (refine Nat.lt_succ_of_le ?_
       have h : ∀ (p : Char → Bool) (l : List Char),
           (l.dropWhile p).length ≤ l.length := by
         intro p l
         induction l with
         | nil => simp
         | cons c rest ih =>
           by_cases hc : p c
           · simp only [List.dropWhile, hc, List.length_cons]
             omega
           · simp [List.dropWhile, hc]
       exact h _ _)
    | omega

/-- `formatDescriptionAsBullets` (ui.js 224-242). -/
def formatDescriptionAsBullets (text : String) : String :=
  if text = "" then ""
  else
    let withBreaks := String.mk (dotBreak (stripCR text).data)
    let parts := (splitNl withBreaks.data).map
      (fun cs => jsTrim (String.mk (cs.dropWhile (fun c => isJsWs c || c = '•' || c = '-'))))
    let sentences := parts.flatMap
      (fun cleaned =>
        if cleaned = "" then []
        else ((cleaned.splitOn ".").map jsTrim).filter (fun s => s ≠ ""))
    if sentences = [] then jsTrim text
    else String.intercalate "\n" (sentences.map (fun s => "• " ++ s))

/-- One item row as created by `createItemRow` (ui.js 244-317): one input
per field, `input.value = item[field.name] || ""`, with description
values run through `formatDescriptionAsBullets`, and
`input.dataset.field = field.name`. -/
def renderRow (fields : List String) (item : Entry) : Entry :=
  fields.map (fun f =>
    (f, if f = "description" then formatDescriptionAsBullets ((entryGet item f).getD "")
        else (entryGet item f).getD ""))

/-- One skill bubble's input value (ui.js 319-359):
`item[primaryField] || item.title || ""` with `primaryField = "title"`. -/
def skillValue (item : Entry) : String :=
  match (entryGet item "title").filter (fun v => v ≠ "") with
  | some v => v
  | none => ""

/-- `renderCvDetails` (ui.js 361-459): the DOM produced for one record,
all four section lists present, rows in record order. -/
def renderView (cv : Cv) : CvView :=
  { experience := some (cv.experience.map (renderRow expFields)),
    education := some (cv.education.map (renderRow eduFields)),
    certifications := some (cv.certifications.map (renderRow certFields)),
    skills := some (cv.skills.map skillValue) }

/-- Rebuild one entry from a row's inputs (`entry[key] = input.value`
per input, in DOM order). -/
def entryFromRow (inputs : Entry) : Entry :=
  inputs.foldl (fun d p => entrySet d p.1 p.2) []

/-- `readCvFromDom` (ui.js 484-509): deep-clone the record, then for each
section whose list element is present replace the section by a fresh list
rebuilt from the still-present rows; an absent list leaves the cloned
section unchanged. -/
def readCvFromDom (cv : Cv) (view : CvView) : Cv :=
  { name := cv.name,
    experience :=
      (match view.experience with
       | some rows => rows.map entryFromRow
       | none => cv.experience),
    education :=
      (match view.education with
       | some rows => rows.map entryFromRow
       | none => cv.education),
    certifications :=
      (match view.certifications with
       | some rows => rows.map entryFromRow
       | none => cv.certifications),
    skills :=
      (match view.skills with
       | some vals => vals.map (fun v => [("title", v)])
       | none => cv.skills) }

/-- Modal state: `modalCvData`, `activeCvIndex` and the rendered DOM of
the active record (ui.js 461-463, 518-558). -/
structure ModalState where
  data : List Cv
  active : Nat
  view : CvView
deriving DecidableEq, Repr

def defaultCv : Cv :=
  { name := "", experience := [], education := [], certifications := [], skills := [] }

/-- `syncActiveCvFromDom` (ui.js 511-516): capture the rendered view back
into the active slot. -/
def syncActive (st : ModalState) : ModalState :=
  if st.data.length = 0 then st
  else
    let updated := readCvFromDom (st.data.getD st.active defaultCv) st.view
    { st with data := st.data.set st.active updated }

/-- A tab click (ui.js 540-548): capture the active record, switch the
index, render the target record. -/
def clickTab (st : ModalState) (i : Nat) : ModalState :=
  let st1 := syncActive st
  { data := st1.data, active := i,
    view := renderView (st1.data.getD i (st1.data.getD 0 defaultCv)) }

/-- `openCvModal` (ui.js 518-558): clone the results in, render the
initial record (falling back to the first on an out-of-range index). -/
def openCvModalState (cvs : List Cv) (initialIndex : Nat) : ModalState :=
  { data := cvs, active := initialIndex,
    view := renderView (cvs.getD initialIndex (cvs.getD 0 defaultCv)) }

/-- The user deleting the first experience row of the rendered view
(the `delete-item-btn` handler removes the row element, ui.js 251). -/
def deleteFirstExperienceRow (v : CvView) : CvView :=
  { v with experience := v.experience.map List.tail }

/-! ## Concrete fixtures used by the claim instances -/

/-- Record "A" with pre-existing content (spec §8 example). -/
def cvA : Cv :=
  { name := "A", experience := [[("jobTitle", "Dev")]], education := [],
    certifications := [], skills := [[("title", "old")]] }

/-- Incoming record "A" whose skills carry the single title "X"
(spec §8 example). -/
def cvAX : Cv :=
  { name := "A", experience := [], education := [],
    certifications := [], skills := [[("title", "X")]] }

def cvAplain : Cv :=
  { name := "A", experience := [], education := [], certifications := [], skills := [] }

def cvBplain : Cv :=
  { name := "B", experience := [], education := [], certifications := [], skills := [] }

def expEntry1 : Entry :=
  [("jobTitle", "Engineer"), ("company", "Acme"), ("description", ""), ("years", "2019 - 2021")]

def expEntry2 : Entry :=
  [("jobTitle", "Senior Engineer"), ("company", "Globex"), ("description", ""), ("years", "2021 - 2024")]

/-- "resume.pdf" as structured with two experience entries (spec §8
scenario). -/
def cvResume : Cv :=
  { name := "resume.pdf", experience := [expEntry1, expEntry2],
    education := [[("degreeField", "BSc CS"), ("school", "MIT")]],
    certifications := [], skills := [[("title", "Java")]] }

def cvOther : Cv :=
  { name := "other.pdf", experience := [], education := [], certifications := [], skills := [] }

/-- The §8 scenario: open the modal on "resume.pdf", delete its first
experience row in the editor, switch to the second CV's tab, switch
back. -/
def captureSwitchScenario : ModalState :=
  let st0 := openCvModalState [cvResume, cvOther] 0
  let st1 := { st0 with view := deleteFirstExperienceRow st0.view }
  clickTab (clickTab st1 1) 0

/-! # Theorems -/

/-! ## Stream session: exactly-once settlement (C1) and deadline/close (C4) -/

theorem clearAndResolve_isResolved (v : String) (st : SessionState) :
    (clearAndResolve v st).resolved = true := by
  unfold clearAndResolve
  split
  · assumption
  · rfl

theorem clearAndReject_isResolved (m : String) (st : SessionState) :
    (clearAndReject m st).resolved = true := by
  unfold clearAndReject
  split
  · assumption
  · rfl

theorem step_of_resolved (st : SessionState) (e : Ev) (h : st.resolved = true) :
    (step st e).resolved = true ∧ (step st e).outcome = st.outcome ∧
    (step st e).settleCount = st.settleCount := by
  cases e with
  | msg raw maybe =>
    simp only [step]
    cases onMessageClassify raw maybe <;> simp [clearAndResolve, h]
  | wsError => simp [step, clearAndReject, h]
  | wsClose => simp [step, clearAndResolve, h]
  | timeout => simp [step, h]

theorem step_resolves_of_completion (st : SessionState) (e : Ev)
    (h : isCompletion e = true) : (step st e).resolved = true := by
  cases e with
  | msg raw maybe =>
    simp only [isCompletion] at h
    simp only [step]
    cases hc : onMessageClassify raw maybe <;> rw [hc] at h <;>
      simp at h <;> exact clearAndResolve_isResolved _ _
  | wsError => exact clearAndReject_isResolved _ _
  | wsClose =>
    simp only [step]
    split
    · assumption
    · exact clearAndResolve_isResolved _ _
  | timeout =>
    simp only [step]
    split
    · assumption
    · exact clearAndReject_isResolved _ _

theorem step_of_nonCompletion (st : SessionState) (e : Ev)
    (h : isCompletion e = false) : (step st e).resolved = st.resolved := by
  cases e with
  | msg raw maybe =>
    simp only [isCompletion] at h
    simp only [step]
    cases hc : onMessageClassify raw maybe <;> rw [hc] at h <;> simp at h ⊢
  | wsError => simp [isCompletion] at h
  | wsClose => simp [isCompletion] at h
  | timeout => simp [isCompletion] at h

/-- The write-once invariant of the session: the settle counter tracks the
`resolved` flag, and the promise holds a value exactly when resolved. -/
def SessionInv (st : SessionState) : Prop :=
  st.settleCount = (if st.resolved then 1 else 0) ∧
  (st.outcome.isSome ↔ st.resolved = true)

theorem inv_initSession : SessionInv initSession := by
  constructor <;> simp [initSession]

theorem inv_clearAndResolve (v : String) (st : SessionState) (h : SessionInv st) :
    SessionInv (clearAndResolve v st) := by
  obtain ⟨h1, h2⟩ := h
  unfold clearAndResolve
  split
  · exact ⟨h1, h2⟩
  · rename_i hr
    simp only [Bool.not_eq_true] at hr
    constructor
    · simp [hr] at h1
      simp [h1]
    · simp

theorem inv_clearAndReject (m : String) (st : SessionState) (h : SessionInv st) :
    SessionInv (clearAndReject m st) := by
  obtain ⟨h1, h2⟩ := h
  unfold clearAndReject
  split
  · exact ⟨h1, h2⟩
  · rename_i hr
    simp only [Bool.not_eq_true] at hr
    constructor
    · simp [hr] at h1
      simp [h1]
    · simp

theorem inv_step (st : SessionState) (e : Ev) (h : SessionInv st) :
    SessionInv (step st e) := by
  cases e with
  | msg raw maybe =>
    simp only [step]
    cases onMessageClassify raw maybe
    · exact h
    · exact inv_clearAndResolve _ _ h
    · exact inv_clearAndResolve _ _ h
    · exact h
    · exact h
  | wsError => exact inv_clearAndReject _ _ h
  | wsClose =>
    simp only [step]
    split
    · exact h
    · exact inv_clearAndResolve _ _ h
  | timeout =>
    simp only [step]
    split
    · exact h
    · exact inv_clearAndReject _ _ h

theorem foldl_inv (tr : List Ev) :
    ∀ st : SessionState, SessionInv st → SessionInv (tr.foldl step st) := by
  induction tr with
  | nil => intro st h; exact h
  | cons e rest ih =>
    intro st h
    exact ih (step st e) (inv_step st e h)

theorem foldl_resolved_mono (tr : List Ev) :
    ∀ st : SessionState, st.resolved = true →
      (tr.foldl step st).resolved = true ∧ (tr.foldl step st).outcome = st.outcome ∧
      (tr.foldl step st).settleCount = st.settleCount := by
  induction tr with
  | nil => intro st h; exact ⟨h, rfl, rfl⟩
  | cons e rest ih =>
    intro st h
    obtain ⟨h1, h2, h3⟩ := step_of_resolved st e h
    obtain ⟨g1, g2, g3⟩ := ih (step st e) h1
    exact ⟨g1, g2.trans h2, g3.trans h3⟩

theorem foldl_resolved_of_completion (tr : List Ev) :
    ∀ st : SessionState, (∃ e ∈ tr, isCompletion e = true) →
      (tr.foldl step st).resolved = true := by
  induction tr with
  | nil =>
    intro st h
    simp at h
  | cons e rest ih =>
    intro st h
    by_cases hc : isCompletion e = true
    · exact (foldl_resolved_mono rest (step st e) (step_resolves_of_completion st e hc)).1
    · apply ih (step st e)
      rcases h with ⟨x, hx, hxc⟩
      rcases List.mem_cons.mp hx with rfl | hx'
      · exact absurd hxc hc
      · exact ⟨x, hx', hxc⟩

theorem foldl_unresolved_of_nonCompletion (tr : List Ev) :
    ∀ st : SessionState, (∀ e ∈ tr, isCompletion e = false) →
      (tr.foldl step st).resolved = st.resolved := by
  induction tr with
  | nil => intro st _; rfl
  | cons e rest ih =>
    intro st h
    have h1 := step_of_nonCompletion st e (h e (List.mem_cons_self e rest))
    have h2 := ih (step st e) (fun x hx => h x (List.mem_cons_of_mem e hx))
    exact h2.trans h1

/-- C1: across every interleaving of session events that contains at least
one completion trigger (terminate frame, channel close, channel error, or
deadline expiry), the promise settles exactly once: the guarded
`resolve`/`reject` fires exactly once (`settleCount = 1`), the session ends
resolved, and any further trigger leaves the settled outcome and the
settle counter unchanged. -/
theorem stream_session_settles_exactly_once (tr : List Ev)
    (h : ∃ e ∈ tr, isCompletion e = true) :
    (runSession tr).settleCount = 1 ∧ (runSession tr).resolved = true ∧
    ∀ e : Ev, (step (runSession tr) e).outcome = (runSession tr).outcome ∧
      (step (runSession tr) e).settleCount = (runSession tr).settleCount := by
  have hres : (runSession tr).resolved = true :=
    foldl_resolved_of_completion tr initSession h
  have hinv : SessionInv (runSession tr) := foldl_inv tr initSession inv_initSession
  refine ⟨?_, hres, ?_⟩
  · rw [hinv.1, hres]
    rfl
  · intro e
    obtain ⟨_, h2, h3⟩ := step_of_resolved (runSession tr) e hres
    exact ⟨h2, h3⟩

theorem stream_session_settles_exactly_once_witness :
    (∃ e ∈ [Ev.wsClose, Ev.timeout, Ev.wsError], isCompletion e = true) ∧
    (runSession [Ev.wsClose, Ev.timeout, Ev.wsError]).settleCount = 1 :=
  ⟨by decide,
   (stream_session_settles_exactly_once [Ev.wsClose, Ev.timeout, Ev.wsError] (by decide)).1⟩

/-- C4: if the deadline fires while the session is still live (no
terminate, close or error processed yet), the channel is closed and the
session settles as a failure (`Streaming timeout`); a channel close on a
live session instead settles as a success carrying the full accumulated
buffer, and a close with no token at all yields the empty-text success —
a failure outcome and a success outcome are always distinct. -/
theorem deadline_failure_close_success (tr : List Ev)
    (h : ∀ e ∈ tr, isCompletion e = false) :
    (step (runSession tr) Ev.timeout).outcome = some (Except.error "Streaming timeout") ∧
    (step (runSession tr) Ev.timeout).wsClosed = true ∧
    (step (runSession tr) Ev.timeout).resolved = true ∧
    (step (runSession tr) Ev.wsClose).outcome = some (Except.ok (runSession tr).fullText) ∧
    (runSession [Ev.wsClose]).outcome = some (Except.ok "") ∧
    ∀ s : String, (Except.error "Streaming timeout" : Except String String) ≠ Except.ok s := by
  have hres : (runSession tr).resolved = false := by
    have := foldl_unresolved_of_nonCompletion tr initSession h
    simpa [runSession, initSession] using this
  refine ⟨?_, ?_, ?_, ?_, by rfl, by intro s; simp⟩
  · simp [step, hres, clearAndReject]
  · simp [step, hres, clearAndReject]
  · simp [step, hres, clearAndReject]
  · simp [step, hres, clearAndResolve]

theorem deadline_failure_close_success_witness :
    (∀ e ∈ [Ev.msg "x" (some (.obj [("event", .str "token"), ("token", .str "Hel")])),
            Ev.msg "x" (some (.obj [("event", .str "token"), ("token", .str "lo")]))],
        isCompletion e = false) ∧
    (step (runSession
        [Ev.msg "x" (some (.obj [("event", .str "token"), ("token", .str "Hel")])),
         Ev.msg "x" (some (.obj [("event", .str "token"), ("token", .str "lo")]))])
      Ev.wsClose).outcome = some (Except.ok "Hello") :=
  ⟨by decide,
   (deadline_failure_close_success
      [Ev.msg "x" (some (.obj [("event", .str "token"), ("token", .str "Hel")])),
       Ev.msg "x" (some (.obj [("event", .str "token"), ("token", .str "lo")]))]
      (by decide)).2.2.2.1⟩

/-! ## Frame classification totality (C3), unrecognized frames (C5),
non-JSON frames (C6) -/

/-- C3: the classification is NOT total — a frame that decodes to an
object whose `choices` field is an empty array (or an array whose first
element is `null`) makes `maybe.choices[0].delta` throw a `TypeError`, so
the handler does not complete on every payload.  The claim's totality is
the documented intent (the surrounding code is uniformly defensive:
`safeParseJSON` exists "to prevent crashes on partial/invalid frames" and
`onToken` errors are caught), so this is recorded as a code bug at these
inputs. -/
theorem frame_handler_throws_on_degenerate_choices :
    onMessageClassify "\x7b\"choices\":[]\x7d" (some (.obj [("choices", .arr [])]))
      = Frame.throws ∧
    onMessageClassify "\x7b\"choices\":[null]\x7d" (some (.obj [("choices", .arr [.null])]))
      = Frame.throws ∧
    (step initSession
      (Ev.msg "\x7b\"choices\":[]\x7d" (some (.obj [("choices", .arr [])])))).resolved
      = false := by
  decide

/-- C5: a frame that decodes successfully but matches none of the four
recognized shapes is NOT ignored — because the recognized-shape block has
no final `return`, control falls into the "not JSON" branch and the raw
payload text is appended to the buffer and emitted through `onToken`.
The code's own comment ("If not JSON, treat as raw token text") documents
that branch as reserved for undecodable payloads, so this is recorded as
a code bug at this input. -/
theorem unrecognized_json_treated_as_raw_token :
    onMessageClassify "\x7b\"foo\":1\x7d" (some (.obj [("foo", .num 1)]))
      = Frame.token "\x7b\"foo\":1\x7d" ∧
    (step initSession (Ev.msg "\x7b\"foo\":1\x7d" (some (.obj [("foo", .num 1)])))).fullText
      = "\x7b\"foo\":1\x7d" ∧
    (step initSession (Ev.msg "\x7b\"foo\":1\x7d" (some (.obj [("foo", .num 1)])))).emitted
      = ["\x7b\"foo\":1\x7d"] ∧
    onMessageClassify "\x7b\"foo\":1\x7d" (some (.obj [("foo", .num 1)])) ≠ Frame.ignore := by
  exact ⟨by decide, rfl, rfl, by decide⟩

/-- C6 counterexample: the exactly-empty non-JSON payload is NOT treated
as terminate.  The guard `if (!evt || !evt.data) return;` makes the
handler return before any classification, so the session neither resolves
nor changes state on an empty frame, contradicting "if the payload is
the sentinel termination marker or empty it is treated as terminate". -/
theorem empty_payload_not_terminate :
    onMessageClassify "" none = Frame.ignore ∧
    (step initSession (Ev.msg "" none)).resolved = false ∧
    (step initSession (Ev.msg "" none)).outcome = none ∧
    Frame.ignore ≠ Frame.terminate := by
  exact ⟨by decide, rfl, rfl, by decide⟩

/-- C6 (amended): for payloads that fail JSON decoding, the exactly-empty
payload is a no-op (the early guard returns before classification); a
non-empty payload that trims to the `[DONE]` sentinel or to the empty
string is treated as terminate, resolving the live session with the
buffer accumulated so far; every other non-JSON payload is treated as a
literal token exactly equal to the raw payload — appended to the buffer
and passed to `onToken` with no characters dropped or duplicated. -/
theorem nonjson_frame_handling (st : SessionState) (p : String)
    (hres : st.resolved = false) :
    step st (Ev.msg "" none) = st ∧
    (p ≠ "" → (jsTrim p = "[DONE]" ∨ jsTrim p = "") →
      (step st (Ev.msg p none)).outcome = some (Except.ok st.fullText) ∧
      (step st (Ev.msg p none)).resolved = true) ∧
    (p ≠ "" → jsTrim p ≠ "[DONE]" → jsTrim p ≠ "" →
      step st (Ev.msg p none)
        = { st with fullText := st.fullText ++ p, emitted := st.emitted ++ [p] }) := by
  refine ⟨rfl, ?_, ?_⟩
  · intro hp hdone
    have hcl : onMessageClassify p none = Frame.terminate := by
      rcases hdone with hd | hd <;> simp [onMessageClassify, hp, classifyRaw, hd]
    simp [step, hcl, clearAndResolve, hres]
  · intro hp h1 h2
    have hcl : onMessageClassify p none = Frame.token p := by
      simp [onMessageClassify, hp, classifyRaw, h1, h2]
    simp [step, hcl]

theorem nonjson_frame_handling_witness :
    initSession.resolved = false ∧
    (step initSession (Ev.msg " [DONE] " none)).outcome = some (Except.ok "") ∧
    (step initSession (Ev.msg "raw chunk" none)).fullText = "raw chunk" := by
  refine ⟨rfl, ?_, ?_⟩
  · exact ((nonjson_frame_handling initSession " [DONE] " rfl).2.1 (by decide) (by decide)).1
  · have h := (nonjson_frame_handling initSession "raw chunk" rfl).2.2
      (by decide) (by decide) (by decide)
    rw [h]
    decide

/-! ## Fallback coordinator (C2) and empty-input guard (C10) -/

/-- C2 counterexample: when both the stream and the blocking fallback
fail, the outer catch renders the fixed apology via `addMessage` but
never pushes it onto `chatHistory` — zero assistant messages are appended
to the persisted transcript for that turn, contradicting "exactly one
assistant message is rendered and appended to the transcript ... never
zero". -/
theorem double_failure_apology_not_in_history :
    (handleSendMessage id "hi" [] StreamOut.fail BlockOut.fail).assistantRendered
      = [apologyText] ∧
    ((handleSendMessage id "hi" [] StreamOut.fail BlockOut.fail).history.filter
      (fun m => m.isUser = false)).length = 0 ∧
    ((handleSendMessage id "hi" [] StreamOut.fail BlockOut.fail).history.filter
      (fun m => m.isUser = false)).length ≠ 1 := by
  decide

/-- C2 (amended): for every non-empty turn, exactly one assistant message
is visible in the chat at the end of the turn; on stream failure the
partial streaming container is removed and the same logical request (same
enhanced prompt, same history including the new user message) is reissued
as one blocking call; the blocking reply, like a streamed reply, is also
appended to the transcript — but when the blocking call fails too, the
fixed apology is rendered only and nothing further is appended to the
transcript.  The send button is re-enabled in every case. -/
theorem one_assistant_message_per_turn (enhance : String → String)
    (input : String) (pre : List ChatMsg) (s : StreamOut) (b : BlockOut)
    (h : jsTrim input ≠ "") :
    (handleSendMessage enhance input pre s b).assistantRendered.length = 1 ∧
    (handleSendMessage enhance input pre s b).sendDisabled = false ∧
    (∀ t, s = StreamOut.ok t →
      (handleSendMessage enhance input pre s b).history
          = pre ++ [⟨jsTrim input, true⟩, ⟨t, false⟩] ∧
      (handleSendMessage enhance input pre s b).blockingCalled = false ∧
      (handleSendMessage enhance input pre s b).containerRemoved = false ∧
      (handleSendMessage enhance input pre s b).assistantRendered = [t]) ∧
    (s = StreamOut.fail →
      (handleSendMessage enhance input pre s b).containerRemoved = true ∧
      (handleSendMessage enhance input pre s b).blockingCalled = true ∧
      (handleSendMessage enhance input pre s b).blockingPrompt
          = (handleSendMessage enhance input pre s b).streamPrompt ∧
      (handleSendMessage enhance input pre s b).blockingHistory
          = (handleSendMessage enhance input pre s b).streamHistory ∧
      (handleSendMessage enhance input pre s b).blockingPrompt
          = some (enhance (jsTrim input)) ∧
      (handleSendMessage enhance input pre s b).blockingHistory
          = some (pre ++ [⟨jsTrim input, true⟩])) ∧
    (∀ rep, s = StreamOut.fail → b = BlockOut.ok rep →
      (handleSendMessage enhance input pre s b).history
          = pre ++ [⟨jsTrim input, true⟩, ⟨rep, false⟩] ∧
      (handleSendMessage enhance input pre s b).assistantRendered = [rep]) ∧
    (s = StreamOut.fail → b = BlockOut.fail →
      (handleSendMessage enhance input pre s b).history
          = pre ++ [⟨jsTrim input, true⟩] ∧
      (handleSendMessage enhance input pre s b).assistantRendered = [apologyText]) := by
  cases s <;> cases b <;> simp [handleSendMessage, h]

theorem one_assistant_message_per_turn_witness :
    jsTrim "hi" ≠ "" ∧
    (handleSendMessage id "hi" [] StreamOut.fail (BlockOut.ok "reply")).assistantRendered.length
      = 1 :=
  ⟨by decide,
   (one_assistant_message_per_turn id "hi" [] StreamOut.fail (BlockOut.ok "reply")
      (by decide)).1⟩

/-- C10: when the user input trims to the empty string, both send
handlers return at the guard with no effect: nothing rendered, the chat
history unchanged, no streaming container or channel, no blocking call,
and the send button left enabled. -/
theorem empty_input_no_effect (enhance : String → String) (input : String)
    (pre : List ChatMsg) (s : StreamOut) (b : BlockOut)
    (h : jsTrim input = "") :
    handleSendMessage enhance input pre s b = emptyTurn pre ∧
    handleSendMessageUi enhance input pre b = emptyTurn pre ∧
    (emptyTurn pre).history = pre ∧
    (emptyTurn pre).assistantRendered = [] ∧
    (emptyTurn pre).userRendered = [] ∧
    (emptyTurn pre).containerCreated = false ∧
    (emptyTurn pre).blockingCalled = false ∧
    (emptyTurn pre).streamPrompt = none ∧
    (emptyTurn pre).sendDisabled = false := by
  refine ⟨?_, ?_, rfl, rfl, rfl, rfl, rfl, rfl, rfl⟩
  · simp [handleSendMessage, h]
  · simp [handleSendMessageUi, h]

theorem empty_input_no_effect_witness :
    jsTrim "   " = "" ∧
    handleSendMessage id "   " [⟨"earlier", true⟩] StreamOut.fail BlockOut.fail
      = emptyTurn [⟨"earlier", true⟩] :=
  ⟨by decide,
   (empty_input_no_effect id "   " [⟨"earlier", true⟩] StreamOut.fail BlockOut.fail
      (by decide)).1⟩

/-! ## Record store: upsertByName (C7) and aliasing (C8) -/

theorem firstSeen_mem {α : Type} (nameOf : α → String) (l : List α) (n : String) :
    n ∈ firstSeenNames nameOf l ↔ n ∈ l.map nameOf := by
  induction l with
  | nil => simp [firstSeenNames]
  | cons x rest ih =>
    simp only [firstSeenNames, List.map_cons, List.mem_cons, List.mem_filter, ih,
      decide_eq_true_eq]
    by_cases hx : n = nameOf x <;> simp [hx]

theorem firstSeen_nodup {α : Type} (nameOf : α → String) (l : List α) :
    (firstSeenNames nameOf l).Nodup := by
  induction l with
  | nil => simp [firstSeenNames]
  | cons x rest ih =>
    simp only [firstSeenNames, List.nodup_cons]
    constructor
    · intro hmem
      rw [List.mem_filter] at hmem
      simp at hmem
    · exact ih.filter _

theorem lastNamed_snoc {α : Type} (nameOf : α → String) (l : List α) (x : α) (n : String) :
    lastNamed nameOf (l ++ [x]) n
      = if nameOf x = n then some x else lastNamed nameOf l n := by
  unfold lastNamed
  rw [List.filter_append]
  by_cases h : nameOf x = n
  · simp [h, List.getLast?_concat]
  · simp [h]

theorem lastNamed_isSome {α : Type} (nameOf : α → String) (l : List α) (n : String)
    (h : n ∈ l.map nameOf) :
    ∃ a, lastNamed nameOf l n = some a ∧ nameOf a = n ∧ a ∈ l := by
  unfold lastNamed
  have hne : l.filter (fun x => nameOf x = n) ≠ [] := by
    rw [List.mem_map] at h
    obtain ⟨a, ha, han⟩ := h
    intro hempty
    have : a ∈ l.filter (fun x => nameOf x = n) := by
      rw [List.mem_filter]
      exact ⟨ha, by simp [han]⟩
    rw [hempty] at this
    simp at this
  cases hl : (l.filter (fun x => nameOf x = n)).getLast? with
  | none =>
    rw [List.getLast?_eq_none_iff] at hl
    exact absurd hl hne
  | some a =>
    have ham : a ∈ l.filter (fun x => nameOf x = n) := by
      have hl' : a ∈ (l.filter (fun x => nameOf x = n)).getLast? :=
        Option.mem_def.mpr hl
      obtain ⟨hne2, heq⟩ := List.mem_getLast?_eq_getLast hl'
      rw [heq]
      exact List.getLast_mem hne2
    rw [List.mem_filter] at ham
    exact ⟨a, rfl, by simpa using ham.2, ham.1⟩

theorem firstSeen_snoc {α : Type} (nameOf : α → String) (l : List α) (x : α) :
    firstSeenNames nameOf (l ++ [x])
      = if nameOf x ∈ l.map nameOf then firstSeenNames nameOf l
        else firstSeenNames nameOf l ++ [nameOf x] := by
  induction l with
  | nil => simp [firstSeenNames]
  | cons y rest ih =>
    have hstep : firstSeenNames nameOf ((y :: rest) ++ [x])
        = nameOf y :: (firstSeenNames nameOf (rest ++ [x])).filter (fun n => n ≠ nameOf y) :=
      rfl
    rw [hstep, ih]
    by_cases hx : nameOf x ∈ rest.map nameOf
    · rw [if_pos hx, if_pos (show nameOf x ∈ (y :: rest).map nameOf by simp [hx])]
      rfl
    · rw [if_neg hx]
      by_cases hxy : nameOf x = nameOf y
      · rw [if_pos (show nameOf x ∈ (y :: rest).map nameOf by simp [hxy])]
        rw [List.filter_append]
        simp [hxy, firstSeenNames]
      · rw [if_neg (show nameOf x ∉ (y :: rest).map nameOf by simp [hx, hxy])]
        rw [List.filter_append]
        simp [hxy, firstSeenNames]

theorem filterMap_names {α : Type} (nameOf : α → String) (ns : List String)
    (f : String → Option α)
    (hf : ∀ n ∈ ns, ∃ a, f n = some a ∧ nameOf a = n) :
    (ns.filterMap f).map nameOf = ns := by
  induction ns with
  | nil => simp
  | cons n rest ih =>
    obtain ⟨a, ha, han⟩ := hf n (List.mem_cons_self n rest)
    simp only [List.filterMap_cons, ha, List.map_cons, han]
    rw [ih (fun m hm => hf m (List.mem_cons_of_mem n hm))]

theorem filterMap_replace {α : Type} (nameOf : α → String) (ns : List String)
    (f : String → Option α) (x : α)
    (hf : ∀ n ∈ ns, ∃ a, f n = some a ∧ nameOf a = n) :
    ns.filterMap (fun n => if nameOf x = n then some x else f n)
      = (ns.filterMap f).map (fun y => if nameOf y = nameOf x then x else y) := by
  induction ns with
  | nil => simp
  | cons n rest ih =>
    obtain ⟨a, ha, han⟩ := hf n (List.mem_cons_self n rest)
    have ihr := ih (fun m hm => hf m (List.mem_cons_of_mem n hm))
    by_cases hxn : nameOf x = n
    · subst hxn
      simp only [List.filterMap_cons, ha, List.map_cons, han, if_pos rfl, ihr]
      simp
    · simp only [List.filterMap_cons, if_neg hxn, ha, List.map_cons]
      have hne : nameOf a ≠ nameOf x := by
        rw [han]
        exact fun hc => hxn hc.symm
      rw [if_neg hne, ihr]

theorem filterMap_ext_mem {α β : Type} (ns : List α) (f g : α → Option β)
    (h : ∀ n ∈ ns, f n = g n) : ns.filterMap f = ns.filterMap g := by
  induction ns with
  | nil => simp
  | cons n rest ih =>
    simp only [List.filterMap_cons, h n (List.mem_cons_self n rest)]
    rw [ih (fun m hm => h m (List.mem_cons_of_mem n hm))]

theorem names_upsertAux {α : Type} (nameOf : α → String) (l : List α)
    (hf : ∀ n ∈ firstSeenNames nameOf l, ∃ a, lastNamed nameOf l n = some a ∧ nameOf a = n) :
    ((firstSeenNames nameOf l).filterMap (lastNamed nameOf l)).map nameOf
      = firstSeenNames nameOf l :=
  filterMap_names nameOf _ _ hf

theorem lastNamed_hf {α : Type} (nameOf : α → String) (l : List α) :
    ∀ n ∈ firstSeenNames nameOf l, ∃ a, lastNamed nameOf l n = some a ∧ nameOf a = n := by
  intro n hn
  obtain ⟨a, h1, h2, _⟩ :=
    lastNamed_isSome nameOf l n ((firstSeen_mem nameOf l n).mp hn)
  exact ⟨a, h1, h2⟩

theorem foldl_mapSet_eq_spec {α : Type} (nameOf : α → String) (l : List α) :
    l.foldl (mapSet nameOf) []
      = (firstSeenNames nameOf l).filterMap (lastNamed nameOf l) := by
  induction l using List.reverseRecOn with
  | nil => simp [firstSeenNames]
  | append_singleton l x ih =>
    rw [List.foldl_append, List.foldl_cons, List.foldl_nil, ih, firstSeen_snoc]
    have hf := lastNamed_hf nameOf l
    have hsnoc : ∀ n ∈ firstSeenNames nameOf l,
        lastNamed nameOf (l ++ [x]) n
          = if nameOf x = n then some x else lastNamed nameOf l n := by
      intro n _
      exact lastNamed_snoc nameOf l x n
    by_cases hx : nameOf x ∈ l.map nameOf
    · rw [if_pos hx]
      rw [filterMap_ext_mem _ _ _ hsnoc]
      rw [filterMap_replace nameOf _ _ x hf]
      have hany : ((firstSeenNames nameOf l).filterMap (lastNamed nameOf l)).any
          (fun y => nameOf y = nameOf x) = true := by
        rw [List.any_eq_true]
        have hmem : nameOf x ∈
            ((firstSeenNames nameOf l).filterMap (lastNamed nameOf l)).map nameOf := by
          rw [names_upsertAux nameOf l hf]
          exact (firstSeen_mem nameOf l (nameOf x)).mpr hx
        rw [List.mem_map] at hmem
        obtain ⟨y, hy, hyn⟩ := hmem
        exact ⟨y, hy, by simp [hyn]⟩
      unfold mapSet
      rw [if_pos hany]
    · rw [if_neg hx, List.filterMap_append]
      have h1 : (firstSeenNames nameOf l).filterMap (lastNamed nameOf (l ++ [x]))
          = (firstSeenNames nameOf l).filterMap (lastNamed nameOf l) := by
        apply filterMap_ext_mem
        intro n hn
        rw [lastNamed_snoc]
        have : nameOf x ≠ n := by
          intro hc
          exact hx (by rw [hc]; exact (firstSeen_mem nameOf l n).mp hn)
        rw [if_neg this]
      rw [h1]
      have h2 : [nameOf x].filterMap (lastNamed nameOf (l ++ [x])) = [x] := by
        simp [lastNamed_snoc]
      rw [h2]
      have hany : ((firstSeenNames nameOf l).filterMap (lastNamed nameOf l)).any
          (fun y => nameOf y = nameOf x) = false := by
        rw [List.any_eq_false]
        intro y hy
        have : nameOf y ∈
            ((firstSeenNames nameOf l).filterMap (lastNamed nameOf l)).map nameOf :=
          List.mem_map_of_mem nameOf hy
        rw [names_upsertAux nameOf l hf, firstSeen_mem] at this
        simp only [decide_eq_true_eq]
        intro hc
        exact hx (hc ▸ this)
      unfold mapSet
      rw [List.any_eq_false] at hany
      rw [if_neg ?hneg]
      case hneg =>
        rw [List.any_eq_true]
        rintro ⟨y, hy, hyx⟩
        exact absurd hyx (by simpa using hany y hy)

theorem upsertByNameBy_eq_spec {α : Type} (nameOf : α → String) (e i : List α) :
    upsertByNameBy nameOf e i = upsertSpec nameOf e i := by
  unfold upsertByNameBy upsertSpec
  rw [← List.foldl_append]
  exact foldl_mapSet_eq_spec nameOf (e ++ i)

/-- C7: `upsertByName` equals its specification: result order follows
first-seen insertion over `existing ++ incoming` with duplicate names
collapsed to their last (wholesale-replacing) value; hence incoming
records with a matching name replace the existing record wholesale,
records only in `existing` are retained, each name appears at most once,
and the two concrete spec examples hold: upserting an incoming "A" with
skills title "X" over an existing "A" yields exactly the incoming record,
and upserting "B" over "A" yields [A, B] in order. -/
theorem upsertByName_correct (e i : List Cv) :
    upsertByName e i = upsertSpecCv e i ∧
    ((upsertByName e i).map (fun cv => cv.name)).Nodup ∧
    upsertByName [cvA] [cvAX] = [cvAX] ∧
    cvAX.skills = [[("title", "X")]] ∧
    upsertByName [cvAplain] [cvBplain] = [cvAplain, cvBplain] := by
  have heq := upsertByNameBy_eq_spec (fun cv : Cv => cv.name) e i
  refine ⟨heq, ?_, by decide, by decide, by decide⟩
  show (List.map (fun cv => cv.name) (upsertByNameBy (fun cv : Cv => cv.name) e i)).Nodup
  rw [heq]
  unfold upsertSpec
  rw [names_upsertAux _ _ (lastNamed_hf _ _)]
  exact firstSeen_nodup _ _

theorem mem_mapSet {α : Type} (nameOf : α → String) (m : List α) (x : α) :
    ∀ y ∈ mapSet nameOf m x, y ∈ m ∨ y = x := by
  unfold mapSet
  split
  · intro y hy
    rw [List.mem_map] at hy
    obtain ⟨z, hz, hzy⟩ := hy
    by_cases h : nameOf z = nameOf x
    · rw [if_pos h] at hzy
      exact Or.inr hzy.symm
    · rw [if_neg h] at hzy
      exact Or.inl (hzy ▸ hz)
  · intro y hy
    rw [List.mem_append, List.mem_singleton] at hy
    exact hy

theorem mem_foldl_mapSet {α : Type} (nameOf : α → String) (l : List α) :
    ∀ (acc : List α) (y : α), y ∈ l.foldl (mapSet nameOf) acc → y ∈ acc ∨ y ∈ l := by
  induction l with
  | nil =>
    intro acc y hy
    exact Or.inl hy
  | cons x rest ih =>
    intro acc y hy
    rw [List.foldl_cons] at hy
    rcases ih (mapSet nameOf acc x) y hy with h | h
    · rcases mem_mapSet nameOf acc x y h with h' | h'
      · exact Or.inl h'
      · exact Or.inr (List.mem_cons.mpr (Or.inl h'))
    · exact Or.inr (List.mem_cons.mpr (Or.inr h))

theorem mem_upsertByNameBy {α : Type} (nameOf : α → String) (e i : List α)
    (y : α) (hy : y ∈ upsertByNameBy nameOf e i) : y ∈ e ∨ y ∈ i := by
  unfold upsertByNameBy at hy
  rcases mem_foldl_mapSet nameOf i (e.foldl (mapSet nameOf) []) y hy with h | h
  · rcases mem_foldl_mapSet nameOf e [] y h with h' | h'
    · simp at h'
    · exact Or.inl h'
  · exact Or.inr h

theorem deepCloneList_vals (modal : List (Nat × Cv)) :
    ∀ fresh : Nat, (deepCloneList fresh modal).map Prod.snd = modal.map Prod.snd := by
  induction modal with
  | nil => intro fresh; rfl
  | cons p rest ih =>
    intro fresh
    simp only [deepCloneList, List.map_cons, ih (fresh + 1)]

theorem deepCloneList_tags (modal : List (Nat × Cv)) :
    ∀ (fresh : Nat) (p : Nat × Cv), p ∈ deepCloneList fresh modal → fresh ≤ p.1 := by
  induction modal with
  | nil =>
    intro fresh p hp
    simp [deepCloneList] at hp
  | cons q rest ih =>
    intro fresh p hp
    simp only [deepCloneList, List.mem_cons] at hp
    rcases hp with rfl | hp
    · exact Nat.le_refl fresh
    · exact Nat.le_of_succ_le (ih (fresh + 1) p hp)

/-- C8 counterexample: `upsertByName` performs no cloning — its result
list contains the very input objects (same heap identity), so the result
does share mutable sub-objects with its inputs, contradicting "deep-clones
both of its inputs before merging ... its result shares no mutable
sub-objects with either input". -/
theorem upsertByName_result_aliases_inputs :
    upsertByNameRef [(0, cvAplain)] [(1, cvBplain)] = [(0, cvAplain), (1, cvBplain)] ∧
    ¬ (∀ p ∈ upsertByNameRef [(0, cvAplain)] [(1, cvBplain)],
        ∀ q ∈ [(0, cvAplain)] ++ [(1, cvBplain)], p.1 ≠ q.1) := by
  constructor
  · decide
  · intro hall
    exact hall (0, cvAplain) (by decide) (0, cvAplain) (by decide) rfl

/-- C8 (amended): `upsertByName` itself does not clone — every element of
its result is (with its identity) an element of one of the inputs — and,
being pure, it mutates neither input; the deep clone happens at the call
site: `submitCvReview` clones the modal data before upserting
(`deepClone` preserves values under fresh identities), so the persisted
submitted set shares no object identity with the in-progress edit
surface. -/
theorem upsertByName_no_clone_caller_clones
    (e i submitted modal : List (Nat × Cv)) (fresh : Nat)
    (hm : ∀ q ∈ modal, q.1 < fresh)
    (hdisj : ∀ p ∈ submitted, ∀ q ∈ modal, p.1 ≠ q.1) :
    (∀ p ∈ upsertByNameRef e i, p ∈ e ∨ p ∈ i) ∧
    (deepCloneList fresh modal).map Prod.snd = modal.map Prod.snd ∧
    (∀ p ∈ upsertByNameRef submitted (deepCloneList fresh modal),
      ∀ q ∈ modal, p.1 ≠ q.1) := by
  refine ⟨fun p hp => mem_upsertByNameBy _ _ _ p hp, deepCloneList_vals modal fresh, ?_⟩
  intro p hp q hq
  rcases mem_upsertByNameBy _ _ _ p hp with h | h
  · exact hdisj p h q hq
  · have h1 := deepCloneList_tags modal fresh p h
    have h2 := hm q hq
    omega

theorem upsertByName_no_clone_caller_clones_witness :
    (∀ q ∈ [(1, cvBplain)], q.1 < 2) ∧
    (deepCloneList 2 [(1, cvBplain)]).map Prod.snd = [(1, cvBplain)].map Prod.snd :=
  ⟨by decide,
   (upsertByName_no_clone_caller_clones [] [] [(0, cvAplain)] [(1, cvBplain)] 2
      (by decide) (by decide)).2.1⟩

/-! ## View synchronizer: capture (C9) -/

/-- C9: `readCvFromDom` reads, for each of the four section kinds, exactly
the still-present rows/bubbles in display order and produces fresh ordered
lists — the result is independent of the prior record's section contents
(wholesale replace, no tombstones), and its section lengths equal the
rendered row counts; and in the §8 scenario (two experience entries for
"resume.pdf", first row deleted in the editor, switch to the other CV's
tab and back) the stored record and the re-rendered view both show
exactly one experience entry, proving capture-on-switch fired. -/
theorem capture_reads_present_rows (cv : Cv) (view : CvView)
    (expRows eduRows certRows : List Entry) (skillVals : List String)
    (hE : view.experience = some expRows) (hEd : view.education = some eduRows)
    (hC : view.certifications = some certRows) (hS : view.skills = some skillVals) :
    readCvFromDom cv view =
      { name := cv.name,
        experience := expRows.map entryFromRow,
        education := eduRows.map entryFromRow,
        certifications := certRows.map entryFromRow,
        skills := skillVals.map (fun v => [("title", v)]) } ∧
    (readCvFromDom cv view).experience.length = expRows.length ∧
    (captureSwitchScenario.data.getD 0 defaultCv).name = "resume.pdf" ∧
    (captureSwitchScenario.data.getD 0 defaultCv).experience.length = 1 ∧
    (captureSwitchScenario.view.experience.getD []).length = 1 := by
  refine ⟨?_, ?_, by decide, by decide, by decide⟩
  · simp [readCvFromDom, hE, hEd, hC, hS]
  · simp [readCvFromDom, hE]

theorem capture_reads_present_rows_witness :
    (renderView cvResume).experience = some (cvResume.experience.map (renderRow expFields)) ∧
    (readCvFromDom cvResume (renderView cvResume)).experience.length = 2 := by
  constructor
  · rfl
  · have h := (capture_reads_present_rows cvResume (renderView cvResume)
      (cvResume.experience.map (renderRow expFields))
      (cvResume.education.map (renderRow eduFields))
      (cvResume.certifications.map (renderRow certFields))
      (cvResume.skills.map skillValue)
      rfl rfl rfl rfl).2.1
    rw [h]
    decide
